import Mathlib

/-!
Verification development for the CS2 trading workflow and portfolio ledger.

Monetary amounts (Python floats) are modelled as rationals (`ℚ`), share
counts (Python ints) as integers (`ℤ`), and Python's `round(x, 2)` as
rounding `100 * x` to the nearest integer with ties to even, divided by 100.
Python dicts keyed by ticker strings are modelled as association lists with
first-key lookup and in-place update (append on a fresh key), matching dict
insertion-order semantics.
-/

set_option autoImplicit false

namespace CsTrade

/-- A ledger position for one ticker: `shares` and the last computed `value`
(`graph.schema.Position`, reconstructed from its uses in
`graph/workflow.py`). -/
structure Position where
  shares : ℤ
  value : ℚ
  deriving DecidableEq, Repr

/-- Trading action (`graph.schema.Action`, values used in
`graph/workflow.py`: BUY, SELL, HOLD). -/
inductive Action where
  | buy
  | sell
  | hold
  deriving DecidableEq, Repr

/-- A per-ticker decision (`graph.schema.Decision`, fields read in
`AgentWorkflow.update_portfolio_ticker`). -/
structure Decision where
  action : Action
  shares : ℤ
  price : ℚ
  justification : String
  deriving DecidableEq, Repr

/-- The in-memory portfolio threaded through a trading-date run
(`graph.schema.Portfolio`, the fields the ledger engine touches). -/
structure Portfolio where
  cashflow : ℚ
  positions : List (String × Position)
  deriving DecidableEq, Repr

/-- First-match lookup in an association list (Python `dict` access /
`key in dict`). -/
def alistGet {α : Type} (ps : List (String × α)) (k : String) : Option α :=
  match ps with
  | [] => none
  | (k', v) :: rest => if k' = k then some v else alistGet rest k

/-- Update the first entry with key `k`, or append a fresh entry
(Python `dict[k] = v`). -/
def alistSet {α : Type} (ps : List (String × α)) (k : String) (v : α) :
    List (String × α) :=
  match ps with
  | [] => [(k, v)]
  | (k', w) :: rest =>
      if k' = k then (k, v) :: rest else (k', w) :: alistSet rest k v

/-- `if ticker not in portfolio.positions: positions[ticker] = Position(shares=0, value=0)`. -/
def ensurePos (ps : List (String × Position)) (t : String) :
    List (String × Position) :=
  if (alistGet ps t).isSome then ps else ps ++ [(t, ⟨0, 0⟩)]

/-- Round a rational to the nearest integer, ties to even (Python's `round`
on a one-argument call). -/
def rhe (q : ℚ) : ℤ :=
  if q - ⌊q⌋ < 1/2 then ⌊q⌋
  else if 1/2 < q - ⌊q⌋ then ⌊q⌋ + 1
  else if ⌊q⌋ % 2 = 0 then ⌊q⌋ else ⌊q⌋ + 1

/-- Python `round(x, 2)`: round to two decimal places, ties to even. -/
def round2 (x : ℚ) : ℚ := (rhe (100 * x) : ℚ) / 100

/-- `TRANSACTION_FEE_RATE = 0.02` from `graph/workflow.py` (2% sell fee). -/
def TRANSACTION_FEE_RATE : ℚ := 2/100

/-- The ledger engine `AgentWorkflow.update_portfolio_ticker` from
`graph/workflow.py`: apply one decision for one ticker to the portfolio. -/
def update_portfolio_ticker (portfolio : Portfolio) (ticker : String)
    (decision : Decision) (enable_transaction_fee : Bool) : Portfolio :=
  let shares := decision.shares
  let price := decision.price
  let ps1 := ensurePos portfolio.positions ticker
  let cur := (alistGet ps1 ticker).getD ⟨0, 0⟩
  let step : ℤ × ℚ :=
    match decision.action with
    | Action.buy =>
        let max_affordable_shares : ℤ :=
          if 0 < price then ⌊portfolio.cashflow / price⌋ else 0
        let actual_shares := min shares max_affordable_shares
        (cur.shares + actual_shares,
          portfolio.cashflow - price * (actual_shares : ℚ))
    | Action.sell =>
        let max_sellable_shares := cur.shares
        let actual_shares := min shares max_sellable_shares
        (cur.shares - actual_shares,
          if enable_transaction_fee then
            portfolio.cashflow + price * (actual_shares : ℚ) * (1 - TRANSACTION_FEE_RATE)
          else
            portfolio.cashflow + price * (actual_shares : ℚ))
    | Action.hold => (cur.shares, portfolio.cashflow)
  let newShares := step.1
  let newValue := round2 (price * (newShares : ℚ))
  { cashflow := round2 step.2,
    positions := alistSet ps1 ticker ⟨newShares, newValue⟩ }

/-- Share count held for a ticker (0 when no position entry exists). -/
def sharesOf (p : Portfolio) (t : String) : ℤ :=
  ((alistGet p.positions t).getD ⟨0, 0⟩).shares

/-- Recorded value for a ticker's position (0 when no entry exists). -/
def valueOf (p : Portfolio) (t : String) : ℚ :=
  ((alistGet p.positions t).getD ⟨0, 0⟩).value

/-- Apply a sequence of (ticker, decision) pairs left to right, as the
trading-date driver threads the portfolio through successive decisions. -/
def applyDecisions (fee : Bool) (p : Portfolio) :
    List (String × Decision) → Portfolio
  | [] => p
  | (t, d) :: rest => applyDecisions fee (update_portfolio_ticker p t d fee) rest

-- ### Association-list lemmas

theorem alistGet_append {α : Type} (ps qs : List (String × α)) (k : String) :
    alistGet (ps ++ qs) k = (alistGet ps k).elim (alistGet qs k) some := by
  induction ps with
  | nil => simp [alistGet]
  | cons hd tl ih =>
      obtain ⟨k', v⟩ := hd
      by_cases h : k' = k <;> simp [alistGet, h, ih]

theorem alistGet_alistSet {α : Type} (ps : List (String × α)) (k u : String)
    (v : α) :
    alistGet (alistSet ps k v) u = if u = k then some v else alistGet ps u := by
  induction ps with
  | nil =>
      show alistGet [(k, v)] u = if u = k then some v else alistGet [] u
      rcases eq_or_ne u k with h | h
      · subst h; simp [alistGet]
      · simp [alistGet, h, Ne.symm h]
  | cons hd tl ih =>
      obtain ⟨k', w⟩ := hd
      rcases eq_or_ne k' k with h | h
      · subst h
        rcases eq_or_ne u k' with hu | hu
        · subst hu; simp [alistSet, alistGet]
        · simp [alistSet, alistGet, hu, Ne.symm hu]
      · rcases eq_or_ne k' u with hu | hu
        · subst hu
          simp [alistSet, alistGet, h, Ne.symm h]
        · simp [alistSet, alistGet, h, hu, ih]

theorem alistGet_ensurePos (ps : List (String × Position)) (t u : String) :
    alistGet (ensurePos ps t) u =
      if u = t then some ((alistGet ps t).getD ⟨0, 0⟩) else alistGet ps u := by
  unfold ensurePos
  cases hpt : alistGet ps t with
  | some v =>
      simp only [hpt, Option.isSome_some, if_true]
      rcases eq_or_ne u t with h | h
      · subst h; simp [hpt]
      · simp [h]
  | none =>
      simp only [hpt, Option.isSome_none, Bool.false_eq_true, if_false]
      rw [alistGet_append]
      rcases eq_or_ne u t with h | h
      · subst h
        simp [hpt, alistGet]
      · cases hpu : alistGet ps u with
        | some w => simp [hpu, h]
        | none => simp [hpu, alistGet, h, Ne.symm h]

-- ### Rounding lemmas

theorem floor_le_rhe (q : ℚ) : ⌊q⌋ ≤ rhe q := by
  unfold rhe
  split
  · exact le_refl _
  · split
    · exact Int.le_add_one (le_refl _)
    · split
      · exact le_refl _
      · exact Int.le_add_one (le_refl _)

theorem round2_nonneg {x : ℚ} (hx : 0 ≤ x) : 0 ≤ round2 x := by
  unfold round2
  have h1 : (0 : ℤ) ≤ ⌊(100 : ℚ) * x⌋ :=
    Int.floor_nonneg.mpr (by positivity)
  have h2 : (0 : ℤ) ≤ rhe (100 * x) := le_trans h1 (floor_le_rhe _)
  have h3 : (0 : ℚ) ≤ (rhe (100 * x) : ℚ) := by exact_mod_cast h2
  positivity

theorem round2_int_div (n : ℤ) : round2 ((n : ℚ) / 100) = (n : ℚ) / 100 := by
  unfold round2 rhe
  have hn : (100 : ℚ) * ((n : ℚ) / 100) = (n : ℚ) := by field_simp
  rw [hn]
  have hf : ⌊(n : ℚ)⌋ = n := Int.floor_intCast n
  rw [hf]
  simp

-- ### Ledger-engine lemmas shared by the claims

theorem min_ite_zero (s x : ℤ) (c : Prop) [Decidable c] (hs : 0 ≤ s) :
    min s (if c then x else 0) = if c then min s x else 0 := by
  by_cases h : c <;> simp [h, min_eq_right hs]

-- ### Claim theorems

/-- Claim C1: a Buy decision with requested shares ≥ 0 increases the ticker's
position by exactly `min(requestedShares, floor(priorCash / price))` when
`price > 0` and by 0 when `price ≤ 0`, and the cashflow becomes the prior
cashflow minus `price * actualShares` (no fee term on buys), rounded to two
decimals as every application does. -/
theorem buy_updates_shares_and_cash (p : Portfolio) (t : String) (d : Decision)
    (fee : Bool) (ha : d.action = Action.buy) (hs : 0 ≤ d.shares) :
    sharesOf (update_portfolio_ticker p t d fee) t =
      sharesOf p t +
        (if 0 < d.price then min d.shares ⌊p.cashflow / d.price⌋ else 0) ∧
    (update_portfolio_ticker p t d fee).cashflow =
      round2 (p.cashflow -
        d.price *
          ((if 0 < d.price then min d.shares ⌊p.cashflow / d.price⌋ else 0 : ℤ) : ℚ)) := by
  obtain ⟨a, s, pr, j⟩ := d
  have ha' : a = Action.buy := ha
  subst ha'
  simp only [update_portfolio_ticker, sharesOf]
  rw [alistGet_alistSet]
  simp only [if_pos rfl, Option.getD_some]
  rw [alistGet_ensurePos]
  simp only [if_pos rfl]
  have hmin : min s (if 0 < pr then ⌊p.cashflow / pr⌋ else 0) =
      if 0 < pr then min s ⌊p.cashflow / pr⌋ else 0 :=
    min_ite_zero s _ _ hs
  rw [hmin]
  exact ⟨rfl, rfl⟩

/-- Closed witness for C1 (Scenario A): cash 1000, Buy 15 shares at price 100
clips to 10 shares and leaves cashflow 0. -/
theorem buy_updates_shares_and_cash_witness :
    (⟨Action.buy, 15, 100, "scenario A"⟩ : Decision).action = Action.buy ∧
    (0 : ℤ) ≤ 15 ∧
    sharesOf (update_portfolio_ticker ⟨1000, []⟩ "AK-47" ⟨Action.buy, 15, 100, "scenario A"⟩ true) "AK-47" = 10 ∧
    (update_portfolio_ticker ⟨1000, []⟩ "AK-47" ⟨Action.buy, 15, 100, "scenario A"⟩ true).cashflow = 0 := by
  have h := buy_updates_shares_and_cash ⟨1000, []⟩ "AK-47"
    ⟨Action.buy, 15, 100, "scenario A"⟩ true rfl (by decide)
  have hfl : ⌊(1000 : ℚ) / 100⌋ = 10 := by
    rw [Int.floor_eq_iff]
    norm_num
  refine ⟨rfl, by decide, ?_, ?_⟩
  · rw [h.1]
    simp only [sharesOf, alistGet, Option.getD_none]
    rw [hfl]
    norm_num
  · rw [h.2]
    simp only [hfl]
    norm_num [round2, rhe]

/-- Claim C2: a Sell decision with requested shares ≥ 0 decreases the ticker's
position by exactly `min(requestedShares, priorShares)`, and the cashflow
becomes the prior cashflow plus `price * actualShares * (1 - 0.02)` when the
fee is enabled, else plus `price * actualShares`, rounded to two decimals;
the fee factor appears only in the sell branch (buys, per C1, never carry
it). -/
theorem sell_updates_shares_and_cash (p : Portfolio) (t : String) (d : Decision)
    (fee : Bool) (ha : d.action = Action.sell) (hs : 0 ≤ d.shares) :
    sharesOf (update_portfolio_ticker p t d fee) t =
      sharesOf p t - min d.shares (sharesOf p t) ∧
    (update_portfolio_ticker p t d fee).cashflow =
      round2 (if fee then
          p.cashflow + d.price * ((min d.shares (sharesOf p t) : ℤ) : ℚ) *
            (1 - TRANSACTION_FEE_RATE)
        else
          p.cashflow + d.price * ((min d.shares (sharesOf p t) : ℤ) : ℚ)) := by
  obtain ⟨a, s, pr, j⟩ := d
  have ha' : a = Action.sell := ha
  subst ha'
  simp only [update_portfolio_ticker, sharesOf]
  rw [alistGet_alistSet]
  simp only [if_pos rfl, Option.getD_some]
  rw [alistGet_ensurePos]
  simp only [if_pos rfl]
  constructor
  · rfl
  · cases fee <;> simp

/-- Closed witness for C2 (Scenario B): 5 shares held, Sell 5 at price 50 with
the fee enabled yields cash `50 * 5 * 0.98 = 245` and zero shares. -/
theorem sell_updates_shares_and_cash_witness :
    (⟨Action.sell, 5, 50, "scenario B"⟩ : Decision).action = Action.sell ∧
    (0 : ℤ) ≤ 5 ∧
    sharesOf (update_portfolio_ticker ⟨0, [("M4A4", ⟨5, 250⟩)]⟩ "M4A4" ⟨Action.sell, 5, 50, "scenario B"⟩ true) "M4A4" = 0 ∧
    (update_portfolio_ticker ⟨0, [("M4A4", ⟨5, 250⟩)]⟩ "M4A4" ⟨Action.sell, 5, 50, "scenario B"⟩ true).cashflow = 245 := by
  have h := sell_updates_shares_and_cash ⟨0, [("M4A4", ⟨5, 250⟩)]⟩ "M4A4"
    ⟨Action.sell, 5, 50, "scenario B"⟩ true rfl (by decide)
  refine ⟨rfl, by decide, ?_, ?_⟩
  · rw [h.1]
    simp [sharesOf, alistGet]
  · rw [h.2]
    have hsh : sharesOf ⟨0, [("M4A4", ⟨5, 250⟩)]⟩ "M4A4" = 5 := by
      simp [sharesOf, alistGet]
    rw [hsh]
    norm_num [TRANSACTION_FEE_RATE]
    have h245 : (245 : ℚ) = ((24500 : ℤ) : ℚ) / 100 := by norm_num
    rw [h245, round2_int_div]

/-- Claim C10: applying a decision for ticker `t` leaves every other ticker's
position entry untouched — lookups at any key other than `t` are unchanged,
so no other position is modified and no entry is created for another key. -/
theorem update_preserves_other_tickers (p : Portfolio) (t : String)
    (d : Decision) (fee : Bool) (u : String) (hu : u ≠ t) :
    alistGet (update_portfolio_ticker p t d fee).positions u =
      alistGet p.positions u := by
  unfold update_portfolio_ticker
  rw [alistGet_alistSet, if_neg hu, alistGet_ensurePos, if_neg hu]

/-- Closed witness for C10: buying "AK-47" leaves the "AWP" position lookup
unchanged. -/
theorem update_preserves_other_tickers_witness :
    ("AWP" : String) ≠ "AK-47" ∧
    alistGet (update_portfolio_ticker ⟨1000, [("AWP", ⟨3, 30⟩)]⟩ "AK-47" ⟨Action.buy, 2, 10, "w"⟩ true).positions "AWP" =
      alistGet [("AWP", (⟨3, 30⟩ : Position))] "AWP" :=
  ⟨by decide, update_preserves_other_tickers ⟨1000, [("AWP", ⟨3, 30⟩)]⟩ "AK-47"
    ⟨Action.buy, 2, 10, "w"⟩ true "AWP" (by decide)⟩

-- ### Per-action characterizations of the ledger update

theorem cur_ensurePos (p : Portfolio) (t : String) :
    (alistGet (ensurePos p.positions t) t).getD ⟨0, 0⟩ =
      (alistGet p.positions t).getD ⟨0, 0⟩ := by
  rw [alistGet_ensurePos]
  simp

theorem update_buy_eq (p : Portfolio) (t : String) (s : ℤ) (pr : ℚ) (j : String)
    (fee : Bool) :
    update_portfolio_ticker p t ⟨Action.buy, s, pr, j⟩ fee =
      { cashflow := round2 (p.cashflow -
          pr * ((min s (if 0 < pr then ⌊p.cashflow / pr⌋ else 0) : ℤ) : ℚ)),
        positions := alistSet (ensurePos p.positions t) t
          ⟨sharesOf p t + min s (if 0 < pr then ⌊p.cashflow / pr⌋ else 0),
           round2 (pr * ((sharesOf p t +
             min s (if 0 < pr then ⌊p.cashflow / pr⌋ else 0) : ℤ) : ℚ))⟩ } := by
  simp only [update_portfolio_ticker, cur_ensurePos]
  rfl

theorem update_sell_eq (p : Portfolio) (t : String) (s : ℤ) (pr : ℚ) (j : String)
    (fee : Bool) :
    update_portfolio_ticker p t ⟨Action.sell, s, pr, j⟩ fee =
      { cashflow := round2 (if fee then
            p.cashflow + pr * ((min s (sharesOf p t) : ℤ) : ℚ) *
              (1 - TRANSACTION_FEE_RATE)
          else p.cashflow + pr * ((min s (sharesOf p t) : ℤ) : ℚ)),
        positions := alistSet (ensurePos p.positions t) t
          ⟨sharesOf p t - min s (sharesOf p t),
           round2 (pr * ((sharesOf p t - min s (sharesOf p t) : ℤ) : ℚ))⟩ } := by
  simp only [update_portfolio_ticker, cur_ensurePos]
  cases fee <;> rfl

theorem update_hold_eq (p : Portfolio) (t : String) (s : ℤ) (pr : ℚ) (j : String)
    (fee : Bool) :
    update_portfolio_ticker p t ⟨Action.hold, s, pr, j⟩ fee =
      { cashflow := round2 p.cashflow,
        positions := alistSet (ensurePos p.positions t) t
          ⟨sharesOf p t, round2 (pr * ((sharesOf p t : ℤ) : ℚ))⟩ } := by
  simp only [update_portfolio_ticker, cur_ensurePos]
  rfl

/-- Claim C4 (corrected): on a Hold decision the ticker's share count is
unchanged and the position value is recomputed as `round(price * shares, 2)`;
other tickers' entries are untouched. The cashflow, however, is re-rounded to
two decimals on every application, so it is unchanged exactly when it was
already a two-decimal amount — the hypothesis `round2 p.cashflow = p.cashflow`
captures that. -/
theorem hold_updates_only_value (p : Portfolio) (t : String) (d : Decision)
    (fee : Bool) (ha : d.action = Action.hold)
    (hc : round2 p.cashflow = p.cashflow) :
    sharesOf (update_portfolio_ticker p t d fee) t = sharesOf p t ∧
    (update_portfolio_ticker p t d fee).cashflow = p.cashflow ∧
    valueOf (update_portfolio_ticker p t d fee) t =
      round2 (d.price * ((sharesOf p t : ℤ) : ℚ)) ∧
    ∀ u, u ≠ t →
      alistGet (update_portfolio_ticker p t d fee).positions u =
        alistGet p.positions u := by
  obtain ⟨a, s, pr, j⟩ := d
  have ha' : a = Action.hold := ha
  subst ha'
  rw [update_hold_eq]
  refine ⟨?_, hc, ?_, ?_⟩
  · unfold sharesOf
    rw [alistGet_alistSet]
    simp
  · unfold valueOf
    rw [alistGet_alistSet]
    simp
  · intro u hu
    dsimp only
    rw [alistGet_alistSet, if_neg hu, alistGet_ensurePos, if_neg hu]

/-- Counterexample to C4 as frozen: a portfolio whose cashflow is 0.001 (not
a two-decimal amount) has its cashflow mutated to 0 by a Hold decision,
because the ledger rounds cashflow to two decimals after every application. -/
theorem hold_mutates_cashflow_cx :
    (⟨Action.hold, 0, 1, "cx"⟩ : Decision).action = Action.hold ∧
    (update_portfolio_ticker ⟨1/1000, []⟩ "A" ⟨Action.hold, 0, 1, "cx"⟩ true).cashflow = 0 ∧
    ((1 : ℚ) / 1000) ≠ 0 := by
  refine ⟨rfl, ?_, by norm_num⟩
  rw [update_hold_eq]
  dsimp only
  unfold round2 rhe
  have h1 : (100 : ℚ) * ((1 : ℚ) / 1000) = 1 / 10 := by norm_num
  rw [h1]
  have h2 : ⌊(1 : ℚ) / 10⌋ = 0 := by
    rw [Int.floor_eq_iff]
    norm_num
  rw [h2]
  norm_num

-- ### The ledger non-negativity invariant (claim C3)

/-- The accounting invariant: non-negative cashflow and non-negative shares
in every position entry. -/
def LedgerInv (p : Portfolio) : Prop :=
  0 ≤ p.cashflow ∧
  ∀ t pos, alistGet p.positions t = some pos → 0 ≤ pos.shares

theorem sharesOf_nonneg_of_inv {p : Portfolio} (h : LedgerInv p) (t : String) :
    0 ≤ sharesOf p t := by
  unfold sharesOf
  cases hpt : alistGet p.positions t with
  | none => simp
  | some pos => simpa using h.2 t pos hpt

theorem inv_entries_after_set (p : Portfolio) (t : String) (ns : ℤ) (nv : ℚ)
    (hInv : LedgerInv p) (hns : 0 ≤ ns) :
    ∀ u pos,
      alistGet (alistSet (ensurePos p.positions t) t ⟨ns, nv⟩) u = some pos →
      0 ≤ pos.shares := by
  intro u pos hu
  rw [alistGet_alistSet] at hu
  by_cases h : u = t
  · rw [if_pos h] at hu
    cases hu
    exact hns
  · rw [if_neg h, alistGet_ensurePos, if_neg h] at hu
    exact hInv.2 u pos hu

/-- One ledger application preserves the invariant, provided the decision's
requested shares and price are non-negative. -/
theorem update_preserves_inv (p : Portfolio) (t : String) (d : Decision)
    (fee : Bool) (hInv : LedgerInv p) (hs : 0 ≤ d.shares) (hp : 0 ≤ d.price) :
    LedgerInv (update_portfolio_ticker p t d fee) := by
  have hcash : 0 ≤ p.cashflow := hInv.1
  have hsh : 0 ≤ sharesOf p t := sharesOf_nonneg_of_inv hInv t
  obtain ⟨a, s, pr, j⟩ := d
  have hs' : 0 ≤ s := hs
  have hp' : 0 ≤ pr := hp
  cases a with
  | buy =>
      rw [update_buy_eq]
      have hactual : 0 ≤ min s (if 0 < pr then ⌊p.cashflow / pr⌋ else 0) := by
        refine le_min hs' ?_
        by_cases hpr : 0 < pr
        · rw [if_pos hpr]
          exact Int.floor_nonneg.mpr (div_nonneg hcash hp')
        · rw [if_neg hpr]
      refine ⟨?_, inv_entries_after_set p t _ _ hInv (by linarith)⟩
      apply round2_nonneg
      by_cases hpr : 0 < pr
      · rw [if_pos hpr]
        have h1 : ((min s ⌊p.cashflow / pr⌋ : ℤ) : ℚ) ≤ p.cashflow / pr := by
          calc ((min s ⌊p.cashflow / pr⌋ : ℤ) : ℚ)
              ≤ ((⌊p.cashflow / pr⌋ : ℤ) : ℚ) := by exact_mod_cast min_le_right _ _
            _ ≤ p.cashflow / pr := Int.floor_le _
        have h2 : pr * ((min s ⌊p.cashflow / pr⌋ : ℤ) : ℚ) ≤
            pr * (p.cashflow / pr) := by
          exact mul_le_mul_of_nonneg_left h1 hp'
        have h3 : pr * (p.cashflow / pr) = p.cashflow := by
          field_simp
        linarith
      · have hpr0 : pr = 0 := le_antisymm (not_lt.mp hpr) hp'
        rw [if_neg hpr]
        simp [hpr0, hcash]
  | sell =>
      rw [update_sell_eq]
      have hactual : 0 ≤ min s (sharesOf p t) := le_min hs' hsh
      have hle : min s (sharesOf p t) ≤ sharesOf p t := min_le_right _ _
      refine ⟨?_, inv_entries_after_set p t _ _ hInv (by linarith)⟩
      apply round2_nonneg
      have hgain : 0 ≤ pr * ((min s (sharesOf p t) : ℤ) : ℚ) :=
        mul_nonneg hp' (by exact_mod_cast hactual)
      cases fee with
      | true =>
          rw [if_pos rfl]
          have hfee : (0 : ℚ) ≤ 1 - TRANSACTION_FEE_RATE := by
            norm_num [TRANSACTION_FEE_RATE]
          nlinarith
      | false =>
          rw [if_neg Bool.false_ne_true]
          linarith
  | hold =>
      rw [update_hold_eq]
      exact ⟨round2_nonneg hcash, inv_entries_after_set p t _ _ hInv hsh⟩

/-- Closed witness for C4: holding at price 7 with 2 shares and two-decimal
cash 100 changes neither the share count nor the cashflow, and recomputes the
value as `round(7 * 2, 2) = 14`. -/
theorem hold_updates_only_value_witness :
    (⟨Action.hold, 0, 7, "w"⟩ : Decision).action = Action.hold ∧
    round2 ((100 : ℚ)) = 100 ∧
    (sharesOf (update_portfolio_ticker ⟨100, [("A", ⟨2, 0⟩)]⟩ "A" ⟨Action.hold, 0, 7, "w"⟩ true) "A" =
        sharesOf ⟨100, [("A", ⟨2, 0⟩)]⟩ "A" ∧
      (update_portfolio_ticker ⟨100, [("A", ⟨2, 0⟩)]⟩ "A" ⟨Action.hold, 0, 7, "w"⟩ true).cashflow =
        (⟨100, [("A", ⟨2, 0⟩)]⟩ : Portfolio).cashflow ∧
      valueOf (update_portfolio_ticker ⟨100, [("A", ⟨2, 0⟩)]⟩ "A" ⟨Action.hold, 0, 7, "w"⟩ true) "A" =
        round2 ((⟨Action.hold, 0, 7, "w"⟩ : Decision).price *
          ((sharesOf ⟨100, [("A", ⟨2, 0⟩)]⟩ "A" : ℤ) : ℚ)) ∧
      ∀ u, u ≠ "A" →
        alistGet (update_portfolio_ticker ⟨100, [("A", ⟨2, 0⟩)]⟩ "A" ⟨Action.hold, 0, 7, "w"⟩ true).positions u =
          alistGet [("A", (⟨2, 0⟩ : Position))] u) := by
  have hc : round2 ((100 : ℚ)) = 100 := by
    have h : (100 : ℚ) = ((10000 : ℤ) : ℚ) / 100 := by norm_num
    rw [h, round2_int_div]
  exact ⟨rfl, hc,
    hold_updates_only_value ⟨100, [("A", ⟨2, 0⟩)]⟩ "A" ⟨Action.hold, 0, 7, "w"⟩
      true rfl hc⟩

/-- Claim C3 (corrected): starting from a portfolio with non-negative cashflow
and non-negative position shares, any sequence of decisions whose requested
shares are ≥ 0 *and whose prices are ≥ 0* keeps cashflow and all position
shares non-negative at every intermediate state (every list split) and at the
end. (The frozen claim omits the price condition; see the counterexample.) -/
theorem ledger_invariant_all_prefixes (fee : Bool) (p0 : Portfolio)
    (ds : List (String × Decision)) (h0 : LedgerInv p0)
    (hds : ∀ td ∈ ds, 0 ≤ td.2.shares ∧ 0 ≤ td.2.price) :
    ∀ pre suf, ds = pre ++ suf → LedgerInv (applyDecisions fee p0 pre) := by
  have aux : ∀ (l : List (String × Decision)) (p : Portfolio), LedgerInv p →
      (∀ td ∈ l, 0 ≤ td.2.shares ∧ 0 ≤ td.2.price) →
      LedgerInv (applyDecisions fee p l) := by
    intro l
    induction l with
    | nil => intro p hp _; exact hp
    | cons hd tl ih =>
        intro p hp hl
        obtain ⟨t, d⟩ := hd
        have hhd := hl (t, d) (List.mem_cons_self _ _)
        exact ih (update_portfolio_ticker p t d fee)
          (update_preserves_inv p t d fee hp hhd.1 hhd.2)
          (fun td htd => hl td (List.mem_cons_of_mem _ htd))
  intro pre suf hsplit
  exact aux pre p0 h0
    (fun td htd => hds td (by rw [hsplit]; exact List.mem_append_left _ htd))

/-- Closed witness for C3: a one-decision Buy sequence from cash 1000 keeps
the invariant. -/
theorem ledger_invariant_all_prefixes_witness :
    LedgerInv ⟨1000, []⟩ ∧
    (∀ td ∈ [("A", (⟨Action.buy, 2, 100, "w"⟩ : Decision))],
      0 ≤ td.2.shares ∧ 0 ≤ td.2.price) ∧
    LedgerInv (applyDecisions true ⟨1000, []⟩
      [("A", ⟨Action.buy, 2, 100, "w"⟩)]) := by
  have h0 : LedgerInv ⟨1000, []⟩ := by
    refine ⟨by norm_num, ?_⟩
    intro t pos h
    simp [alistGet] at h
  have hds : ∀ td ∈ [("A", (⟨Action.buy, 2, 100, "w"⟩ : Decision))],
      0 ≤ td.2.shares ∧ 0 ≤ td.2.price := by
    intro td htd
    simp at htd
    subst htd
    exact ⟨by norm_num, by norm_num⟩
  exact ⟨h0, hds,
    ledger_invariant_all_prefixes true ⟨1000, []⟩ _ h0 hds
      [("A", ⟨Action.buy, 2, 100, "w"⟩)] [] rfl⟩

/-- Counterexample to C3 as frozen: with requested shares ≥ 0 but a negative
settlement price, a Sell credits a negative amount and drives the cashflow
below zero — the start portfolio has cash 0 ≥ 0 and one position with 1 ≥ 0
shares, the single Sell requests 1 ≥ 0 shares, yet the final cashflow is
-98 < 0. -/
theorem ledger_invariant_cx :
    LedgerInv ⟨0, [("A", ⟨1, 0⟩)]⟩ ∧
    (∀ td ∈ [("A", (⟨Action.sell, 1, -100, "s"⟩ : Decision))],
      0 ≤ td.2.shares) ∧
    (applyDecisions true ⟨0, [("A", ⟨1, 0⟩)]⟩
      [("A", ⟨Action.sell, 1, -100, "s"⟩)]).cashflow < 0 := by
  refine ⟨⟨le_refl 0, ?_⟩, ?_, ?_⟩
  · intro t pos h
    simp only [alistGet] at h
    split at h
    · cases h
      norm_num
    · simp [alistGet] at h
  · intro td htd
    simp at htd
    subst htd
    norm_num
  · show (update_portfolio_ticker ⟨0, [("A", ⟨1, 0⟩)]⟩ "A"
      ⟨Action.sell, 1, -100, "s"⟩ true).cashflow < 0
    rw [update_sell_eq]
    dsimp only
    have hsh : sharesOf ⟨0, [("A", ⟨1, 0⟩)]⟩ "A" = 1 := by
      simp [sharesOf, alistGet]
    rw [if_pos rfl, hsh]
    have h1 : (0 : ℚ) + (-100) * ((min (1 : ℤ) 1 : ℤ) : ℚ) *
        (1 - TRANSACTION_FEE_RATE) = ((-9800 : ℤ) : ℚ) / 100 := by
      norm_num [TRANSACTION_FEE_RATE]
    rw [h1, round2_int_div]
    norm_num

-- ### Step registry (`agents/registry.py`)

/-- `AgentRegistry.register_agent`: store a callable under a key in the
process-wide mapping (Python `dict[key] = func`, last write wins). The
callable type is abstract. -/
def register_agent {α : Type} (m : List (String × α)) (key : String) (f : α) :
    List (String × α) :=
  alistSet m key f

/-- `AgentRegistry.get_agent_func_by_key`: `agent_func_mapping.get(key)` —
Python `dict.get` with no default, yielding `None` when the key is absent. -/
def get_agent_func_by_key {α : Type} (m : List (String × α)) (key : String) :
    Option α :=
  alistGet m key

theorem alistGet_mem {α : Type} (m : List (String × α)) (k : String) (v : α)
    (h : alistGet m k = some v) : (k, v) ∈ m := by
  induction m with
  | nil => cases h
  | cons hd tl ih =>
      obtain ⟨k', w⟩ := hd
      by_cases hk : k' = k
      · subst hk
        rw [alistGet, if_pos rfl] at h
        cases h
        exact List.mem_cons_self _ _
      · rw [alistGet, if_neg hk] at h
        exact List.mem_cons_of_mem _ (ih h)

/-- Claim C7 (corrected): resolving an identifier that was never registered
returns `None` — no callable is ever produced for an absent key. `dict.get`
is total: no `UnknownStepError` (or any exception) is raised, contrary to the
frozen claim. -/
theorem resolve_unregistered_returns_none {α : Type} (m : List (String × α))
    (key : String) (h : ∀ f : α, (key, f) ∉ m) :
    get_agent_func_by_key m key = none := by
  cases hv : alistGet m key with
  | none => exact hv
  | some v => exact absurd (alistGet_mem m key v hv) (h v)

/-- Closed witness for C7's amended statement: a registry holding only
"technical_analyst" resolves "portfolio_manager" to `None`. -/
theorem resolve_unregistered_returns_none_witness :
    (∀ f : ℕ, ("portfolio_manager", f) ∉ [("technical_analyst", 1)]) ∧
    get_agent_func_by_key [("technical_analyst", 1)] "portfolio_manager" = none := by
  have h : ∀ f : ℕ, ("portfolio_manager", f) ∉ [("technical_analyst", 1)] := by
    intro f hf
    simp at hf
  exact ⟨h, resolve_unregistered_returns_none _ _ h⟩

/-- Counterexample to C7 as frozen: resolving an absent identifier does not
fail — `get_agent_func_by_key` is a total function whose result here is
`none` (Python `None` from `dict.get`), so no `UnknownStepError` is raised
and the caller receives `None` instead of an exception. -/
theorem resolve_unknown_step_cx :
    get_agent_func_by_key
      (register_agent ([] : List (String × ℕ)) "technical_analyst" 1)
      "unknown_step" = none := by
  decide

-- ### Portfolio snapshots in the database (`database/cs2_sqlite_helper.py`)

/-- One row of the `cs2_portfolio` table (the columns the workflow reads;
`updated_at` recency is modelled by list position — later rows are newer —
and `market_type` is the constant string). -/
structure DBRow where
  id : ℕ
  config_id : String
  trading_date : ℕ
  cashflow : ℚ
  total_assets : ℚ
  positions : List (String × Position)
  deriving DecidableEq, Repr

/-- `sum(position['value'] for position in positions.values())`. -/
def sumValues (ps : List (String × Position)) : ℚ :=
  (ps.map (fun kv => kv.2.value)).sum

/-- The fields of the portfolio dict that `copy_portfolio` reads. -/
structure PortfolioDict where
  cashflow : ℚ
  positions : List (String × Position)
  deriving DecidableEq, Repr

/-- The `WHERE config_id = ? AND trading_date = ?` filter. -/
def matchRow (cid : String) (date : ℕ) (r : DBRow) : Bool :=
  decide (r.config_id = cid ∧ r.trading_date = date)

/-- `CS2SQLiteDB.copy_portfolio`: if a snapshot already exists for
`(config_id, trading_date)` return it unchanged, otherwise insert a fresh
snapshot carrying the portfolio's cashflow and positions with a recomputed
`total_assets`. `fresh` stands for the generated uuid. Returns the snapshot
and the resulting table. -/
def copy_portfolio (db : List DBRow) (config_id : String)
    (portfolio : PortfolioDict) (trading_date : ℕ) (fresh : ℕ) :
    DBRow × List DBRow :=
  match db.find? (matchRow config_id trading_date) with
  | some row => (row, db)
  | none =>
      let total_assets := portfolio.cashflow + sumValues portfolio.positions
      let row : DBRow :=
        ⟨fresh, config_id, trading_date, portfolio.cashflow, total_assets,
          portfolio.positions⟩
      (row, db ++ [row])

theorem find?_append_of_none {α : Type} (l₁ l₂ : List α) (p : α → Bool)
    (h : l₁.find? p = none) : (l₁ ++ l₂).find? p = l₂.find? p := by
  induction l₁ with
  | nil => simp
  | cons a l ih =>
      cases hpa : p a with
      | true =>
          rw [List.find?_cons_of_pos _ hpa] at h
          cases h
      | false =>
          rw [List.find?_cons_of_neg _ (by simp [hpa])] at h
          show List.find? p (a :: (l ++ l₂)) = l₂.find? p
          rw [List.find?_cons_of_neg _ (by simp [hpa])]
          exact ih h

/-- Claim C5: the copy-on-write snapshot operation is idempotent per
`(config_id, trading_date)` — whatever portfolio dict and fresh id the second
call is given, it returns exactly the snapshot of the first call (same row,
hence same id) and leaves the table unchanged (no duplicate created). -/
theorem copy_portfolio_idempotent (db : List DBRow) (cid : String)
    (pf pf2 : PortfolioDict) (date : ℕ) (f1 f2 : ℕ) :
    (copy_portfolio (copy_portfolio db cid pf date f1).2 cid pf2 date f2).1 =
      (copy_portfolio db cid pf date f1).1 ∧
    (copy_portfolio (copy_portfolio db cid pf date f1).2 cid pf2 date f2).2 =
      (copy_portfolio db cid pf date f1).2 := by
  cases h : db.find? (matchRow cid date) with
  | some row =>
      have e1 : copy_portfolio db cid pf date f1 = (row, db) := by
        unfold copy_portfolio
        rw [h]
      have e2 : copy_portfolio db cid pf2 date f2 = (row, db) := by
        unfold copy_portfolio
        rw [h]
      rw [e1, e2]
      exact ⟨rfl, rfl⟩
  | none =>
      have hrow : matchRow cid date
          ⟨f1, cid, date, pf.cashflow, pf.cashflow + sumValues pf.positions,
            pf.positions⟩ = true := by
        simp [matchRow]
      have h2 : (db ++ [(⟨f1, cid, date, pf.cashflow,
          pf.cashflow + sumValues pf.positions, pf.positions⟩ : DBRow)]).find?
            (matchRow cid date) =
          some ⟨f1, cid, date, pf.cashflow,
            pf.cashflow + sumValues pf.positions, pf.positions⟩ := by
        rw [find?_append_of_none _ _ _ h]
        rw [List.find?_cons_of_pos _ hrow]
      have e1 : copy_portfolio db cid pf date f1 =
          (⟨f1, cid, date, pf.cashflow,
             pf.cashflow + sumValues pf.positions, pf.positions⟩,
           db ++ [⟨f1, cid, date, pf.cashflow,
             pf.cashflow + sumValues pf.positions, pf.positions⟩]) := by
        unfold copy_portfolio
        rw [h]
      have e2 : copy_portfolio (db ++ [(⟨f1, cid, date, pf.cashflow,
          pf.cashflow + sumValues pf.positions, pf.positions⟩ : DBRow)]) cid
            pf2 date f2 =
          (⟨f1, cid, date, pf.cashflow,
             pf.cashflow + sumValues pf.positions, pf.positions⟩,
           db ++ [⟨f1, cid, date, pf.cashflow,
             pf.cashflow + sumValues pf.positions, pf.positions⟩]) := by
        unfold copy_portfolio
        rw [h2]
      rw [e1, e2]
      exact ⟨rfl, rfl⟩

-- ### Trading-date driver (`src/run.py` and `AgentWorkflow` in `graph/workflow.py`)

/-- The experiment configuration fields the driver reads (`config_id` stands
for the id resolved by `load_portfolio_config`; trading dates are modelled as
naturals ordered chronologically, matching `datetime` comparison). -/
structure RunConfig where
  config_id : String
  trading_date : ℕ
  cashflow : ℚ
  tickers : List String
  planner_mode : Bool
  workflow_analysts : List String
  enable_transaction_fee : Bool
  deriving DecidableEq, Repr

/-- The fatal errors the driver can raise: the chronological-ordering
`RuntimeError` in `run_single_experiment`, the `ValueError("No analysts
selected by planner")` in `load_analysts` (the spec's `NoStepsSelectedError`),
the `RuntimeError` re-raised when a ticker's workflow invocation fails, and
the `RuntimeError` when the final database update reports failure. -/
inductive RunError where
  | orderingError
  | noStepsSelected
  | workflowError
  | persistError
  deriving DecidableEq, Repr

/-- `CS2SQLiteDB.get_latest_trading_date`: the trading date of the most
recently updated snapshot for the configuration (list position models
`updated_at` recency, later rows being newer). -/
def get_latest_trading_date (db : List DBRow) (cid : String) : Option ℕ :=
  (db.reverse.find? (fun r => decide (r.config_id = cid))).map
    (fun r => r.trading_date)

/-- `CS2SQLiteDB.get_latest_portfolio`: the most recently updated snapshot
row for the configuration. -/
def get_latest_portfolio (db : List DBRow) (cid : String) : Option DBRow :=
  db.reverse.find? (fun r => decide (r.config_id = cid))

/-- `CS2SQLiteDB.create_portfolio`: insert a fresh snapshot with the
configured cash and empty positions. -/
def create_portfolio (db : List DBRow) (cid : String) (cash : ℚ) (date : ℕ)
    (fresh : ℕ) : DBRow × List DBRow :=
  let row : DBRow := ⟨fresh, cid, date, cash, cash, []⟩
  (row, db ++ [row])

/-- `CS2SQLiteDB.update_portfolio`: `UPDATE cs2_portfolio SET cashflow,
total_assets, positions WHERE config_id = ? AND trading_date = ?`; the
returned Bool is `cursor.rowcount > 0` (a row matched). -/
def update_portfolio_db (db : List DBRow) (cid : String) (p : Portfolio)
    (date : ℕ) : List DBRow × Bool :=
  (db.map (fun r =>
      if r.config_id = cid ∧ r.trading_date = date then
        { r with cashflow := p.cashflow,
                 total_assets := p.cashflow + sumValues p.positions,
                 positions := p.positions }
      else r),
   db.any (matchRow cid date))

/-- The ledger view of a snapshot row (`Portfolio(**new_portfolio)`). -/
def toPortfolio (r : DBRow) : Portfolio := ⟨r.cashflow, r.positions⟩

/-- The dict handed to `copy_portfolio`. -/
def toDict (r : DBRow) : PortfolioDict := ⟨r.cashflow, r.positions⟩

/-- `AgentWorkflow.load_analysts` plus the constructor's validation filter:
with no (valid) analysts use direct mode; in planner mode delegate to the
planning step and fail when it selects nothing; otherwise use the whole
verified list. `valid` is `AgentRegistry.check_agent_key`; `planner` models
the external `planner_agent` call. -/
def load_analysts (cfg : RunConfig) (valid : String → Bool)
    (planner : String → List String) (t : String) :
    Except RunError (List String) :=
  let analysts := cfg.workflow_analysts.filter valid
  if analysts = [] then Except.ok []
  else if cfg.planner_mode then
    if planner t = [] then Except.error RunError.noStepsSelected
    else Except.ok (planner t)
  else Except.ok analysts

/-- The per-ticker loop of `AgentWorkflow.run`: select analysts, invoke the
compiled workflow (modelled by the oracle `invoke`, which yields the
decision or `none` when the invocation raises), and fold the decision into
the portfolio with the ledger engine. Any error aborts the remaining
tickers. -/
def run_tickers (cfg : RunConfig) (valid : String → Bool)
    (planner : String → List String)
    (invoke : String → List String → Portfolio → Option Decision) :
    List String → Portfolio → Except RunError Portfolio
  | [], p => Except.ok p
  | t :: ts, p =>
      match load_analysts cfg valid planner t with
      | Except.error e => Except.error e
      | Except.ok analysts =>
          match invoke t analysts p with
          | none => Except.error RunError.workflowError
          | some d =>
              run_tickers cfg valid planner invoke ts
                (update_portfolio_ticker p t d cfg.enable_transaction_fee)

/-- Result of a trading-date run: the outcome, the final database table, and
the list of portfolio snapshots handed to `update_portfolio` (persist
calls). -/
structure RunOutcome where
  result : Except RunError Portfolio
  db : List DBRow
  persists : List Portfolio
  deriving Repr

/-- The tail of `AgentWorkflow.run`: process every ticker in order, then
persist the final portfolio once via `update_portfolio`, failing when no row
was updated. On any ticker error nothing is persisted. -/
def run_date (db : List DBRow) (cfg : RunConfig) (valid : String → Bool)
    (planner : String → List String)
    (invoke : String → List String → Portfolio → Option Decision)
    (p0 : Portfolio) : RunOutcome :=
  match run_tickers cfg valid planner invoke cfg.tickers p0 with
  | Except.error e => ⟨Except.error e, db, []⟩
  | Except.ok p =>
      let res := update_portfolio_db db cfg.config_id p cfg.trading_date
      ⟨if res.2 then Except.ok p else Except.error RunError.persistError,
        res.1, [p]⟩

/-- `AgentWorkflow.__init__`: load the latest snapshot (create one when the
configuration has none), then derive the date's working snapshot through
`copy_portfolio`. `f1`/`f2` stand for the generated uuids. -/
def init_portfolio (db : List DBRow) (cfg : RunConfig) (f1 f2 : ℕ) :
    Portfolio × List DBRow :=
  match get_latest_portfolio db cfg.config_id with
  | some row =>
      let c := copy_portfolio db cfg.config_id (toDict row) cfg.trading_date f2
      (toPortfolio c.1, c.2)
  | none =>
      let cr := create_portfolio db cfg.config_id cfg.cashflow cfg.trading_date f1
      let c := copy_portfolio cr.2 cfg.config_id (toDict cr.1) cfg.trading_date f2
      (toPortfolio c.1, c.2)

/-- The unchecked body of a single-date run: construct the workflow (which
derives the date's snapshot) and run it. -/
def run_core (db : List DBRow) (cfg : RunConfig) (valid : String → Bool)
    (planner : String → List String)
    (invoke : String → List String → Portfolio → Option Decision)
    (f1 f2 : ℕ) : RunOutcome :=
  let ip := init_portfolio db cfg f1 f2
  run_date ip.2 cfg valid planner invoke ip.1

/-- `run_single_experiment` from `src/run.py`: check the chronological
ordering precondition (`if latest_trading_date and latest_trading_date >
cfg["trading_date"]: raise`), then construct and run the workflow. -/
def run_single_experiment (db : List DBRow) (cfg : RunConfig)
    (valid : String → Bool) (planner : String → List String)
    (invoke : String → List String → Portfolio → Option Decision)
    (f1 f2 : ℕ) : RunOutcome :=
  match get_latest_trading_date db cfg.config_id with
  | some latest =>
      if cfg.trading_date < latest then ⟨Except.error RunError.orderingError, db, []⟩
      else run_core db cfg valid planner invoke f1 f2
  | none => run_core db cfg valid planner invoke f1 f2

/-- Claim C6: when a trading date was previously persisted for the
configuration, a run whose new trading date is strictly earlier fails with
the fatal ordering error before the workflow is even constructed — the
database is untouched and nothing is persisted — while a date equal to the
last persisted one passes the check and proceeds with the normal run. -/
theorem earlier_date_fails_before_any_work (db : List DBRow) (cfg : RunConfig)
    (valid : String → Bool) (planner : String → List String)
    (invoke : String → List String → Portfolio → Option Decision)
    (f1 f2 : ℕ) (L : ℕ)
    (h : get_latest_trading_date db cfg.config_id = some L) :
    (cfg.trading_date < L →
      run_single_experiment db cfg valid planner invoke f1 f2 =
        ⟨Except.error RunError.orderingError, db, []⟩) ∧
    (cfg.trading_date = L →
      run_single_experiment db cfg valid planner invoke f1 f2 =
        run_core db cfg valid planner invoke f1 f2) := by
  constructor
  · intro hlt
    unfold run_single_experiment
    rw [h]
    dsimp only
    rw [if_pos hlt]
  · intro heq
    unfold run_single_experiment
    rw [h]
    dsimp only
    rw [if_neg (heq ▸ lt_irrefl L)]

/-- Closed witness for C6: with a persisted snapshot at date 5, a run dated 3
fails with the ordering error and leaves the database unchanged; a run dated
5 would proceed. -/
theorem earlier_date_fails_before_any_work_witness :
    get_latest_trading_date [⟨0, "c", 5, 100, 100, []⟩] "c" = some 5 ∧
    (((⟨"c", 3, 100, ["A"], false, [], true⟩ : RunConfig).trading_date < 5 →
      run_single_experiment [⟨0, "c", 5, 100, 100, []⟩]
          ⟨"c", 3, 100, ["A"], false, [], true⟩ (fun _ => false) (fun _ => [])
          (fun _ _ _ => none) 7 8 =
        ⟨Except.error RunError.orderingError, [⟨0, "c", 5, 100, 100, []⟩], []⟩) ∧
    ((⟨"c", 3, 100, ["A"], false, [], true⟩ : RunConfig).trading_date = 5 →
      run_single_experiment [⟨0, "c", 5, 100, 100, []⟩]
          ⟨"c", 3, 100, ["A"], false, [], true⟩ (fun _ => false) (fun _ => [])
          (fun _ _ _ => none) 7 8 =
        run_core [⟨0, "c", 5, 100, 100, []⟩]
          ⟨"c", 3, 100, ["A"], false, [], true⟩ (fun _ => false) (fun _ => [])
          (fun _ _ _ => none) 7 8)) := by
  have h : get_latest_trading_date [⟨0, "c", 5, 100, 100, []⟩] "c" = some 5 := by
    rfl
  exact ⟨h, earlier_date_fails_before_any_work [⟨0, "c", 5, 100, 100, []⟩]
    ⟨"c", 3, 100, ["A"], false, [], true⟩ (fun _ => false) (fun _ => [])
    (fun _ _ _ => none) 7 8 5 h⟩

theorem run_tickers_planner_empty (cfg : RunConfig) (valid : String → Bool)
    (planner : String → List String)
    (invoke : String → List String → Portfolio → Option Decision)
    (hpm : cfg.planner_mode = true)
    (han : cfg.workflow_analysts.filter valid ≠ [])
    (hinv : ∀ u a p, invoke u a p ≠ none) :
    ∀ (ts : List String) (p : Portfolio) (t : String), t ∈ ts →
      planner t = [] →
      run_tickers cfg valid planner invoke ts p =
        Except.error RunError.noStepsSelected := by
  have hload : ∀ u, load_analysts cfg valid planner u =
      if planner u = [] then Except.error RunError.noStepsSelected
      else Except.ok (planner u) := by
    intro u
    simp only [load_analysts]
    rw [if_neg han, hpm]
    simp
  intro ts
  induction ts with
  | nil =>
      intro p t ht
      cases ht
  | cons u us ih =>
      intro p t ht hsel
      by_cases hu : planner u = []
      · show run_tickers cfg valid planner invoke (u :: us) p = _
        unfold run_tickers
        rw [hload u, if_pos hu]
      · have hmem : t ∈ us := by
          cases List.mem_cons.mp ht with
          | inl heq => exact absurd (heq ▸ hsel) hu
          | inr hmem => exact hmem
        show run_tickers cfg valid planner invoke (u :: us) p = _
        unfold run_tickers
        rw [hload u, if_neg hu]
        dsimp only
        cases hiv : invoke u (planner u) p with
        | none => exact absurd hiv (hinv u _ p)
        | some d => exact ih _ t hmem hsel

/-- Claim C8: in planned mode (with a non-empty verified analyst list, so the
planner actually runs), if the planner returns an empty selection for some
ticker of the run — and no ticker fails for a different reason — the whole
trading-date run fails with the no-steps-selected error (the code's
`ValueError("No analysts selected by planner")`), the database is left
exactly as it was after the copy-on-write initialization, and no portfolio
snapshot is persisted for the date (`update_portfolio` is never called). -/
theorem planner_empty_selection_aborts_date (db : List DBRow)
    (cfg : RunConfig) (valid : String → Bool)
    (planner : String → List String)
    (invoke : String → List String → Portfolio → Option Decision)
    (p0 : Portfolio)
    (hpm : cfg.planner_mode = true)
    (han : cfg.workflow_analysts.filter valid ≠ [])
    (t : String) (ht : t ∈ cfg.tickers) (hsel : planner t = [])
    (hinv : ∀ u a p, invoke u a p ≠ none) :
    run_date db cfg valid planner invoke p0 =
      ⟨Except.error RunError.noStepsSelected, db, []⟩ := by
  unfold run_date
  rw [run_tickers_planner_empty cfg valid planner invoke hpm han hinv
    cfg.tickers p0 t ht hsel]

/-- Closed witness for C8: planned mode with one verified analyst, one
ticker, a planner returning the empty selection and an otherwise succeeding
pipeline aborts the date with the no-steps-selected error and persists
nothing. -/
theorem planner_empty_selection_aborts_date_witness :
    (⟨"c", 3, 100, ["A"], true, ["technical_analyst"], true⟩ : RunConfig).planner_mode = true ∧
    (⟨"c", 3, 100, ["A"], true, ["technical_analyst"], true⟩ : RunConfig).workflow_analysts.filter (fun _ => true) ≠ [] ∧
    "A" ∈ (⟨"c", 3, 100, ["A"], true, ["technical_analyst"], true⟩ : RunConfig).tickers ∧
    ((fun _ => ([] : List String)) "A" = []) ∧
    run_date [] ⟨"c", 3, 100, ["A"], true, ["technical_analyst"], true⟩
        (fun _ => true) (fun _ => [])
        (fun _ _ _ => some ⟨Action.hold, 0, 1, "w"⟩) ⟨100, []⟩ =
      ⟨Except.error RunError.noStepsSelected, [], []⟩ := by
  refine ⟨rfl, by simp, by simp, rfl, ?_⟩
  exact planner_empty_selection_aborts_date []
    ⟨"c", 3, 100, ["A"], true, ["technical_analyst"], true⟩
    (fun _ => true) (fun _ => [])
    (fun _ _ _ => some ⟨Action.hold, 0, 1, "w"⟩) ⟨100, []⟩ rfl (by simp)
    "A" (by simp) rfl (fun u a p => by simp)

/-- Claim C9: within one trading-date run the snapshot is persisted exactly
once — a single `update_portfolio` call with the portfolio obtained by
threading every ticker's decision in the caller-supplied order — and only
when every ticker succeeded; if any ticker's pipeline fails, the run aborts
with that error, the database is unchanged and no persist call is made (all
in-memory mutations are discarded). -/
theorem run_date_persists_once_or_aborts (db : List DBRow) (cfg : RunConfig)
    (valid : String → Bool) (planner : String → List String)
    (invoke : String → List String → Portfolio → Option Decision)
    (p0 : Portfolio) :
    (∃ p, run_tickers cfg valid planner invoke cfg.tickers p0 = Except.ok p ∧
      run_date db cfg valid planner invoke p0 =
        ⟨if (update_portfolio_db db cfg.config_id p cfg.trading_date).2
            then Except.ok p else Except.error RunError.persistError,
          (update_portfolio_db db cfg.config_id p cfg.trading_date).1,
          [p]⟩) ∨
    (∃ e, run_tickers cfg valid planner invoke cfg.tickers p0 =
        Except.error e ∧
      run_date db cfg valid planner invoke p0 =
        ⟨Except.error e, db, []⟩) := by
  cases h : run_tickers cfg valid planner invoke cfg.tickers p0 with
  | ok p =>
      left
      refine ⟨p, rfl, ?_⟩
      unfold run_date
      rw [h]
  | error e =>
      right
      refine ⟨e, rfl, ?_⟩
      unfold run_date
      rw [h]

end CsTrade
